import Mathlib

/-!
Verification development for the openclaw-audit-tui ingestion, aggregation and
query pipeline.  The TypeScript sources are shallowly embedded: pure functions
become Lean functions over explicit data, JavaScript platform facilities
(JSON.parse, Date parsing, JSON.stringify, the filesystem) become explicit
function parameters, and fallible code returns Option or Except.
-/

/-! ## JavaScript string primitives

The TypeScript code uses String.prototype methods (toLowerCase, trim, split,
includes, startsWith, endsWith).  They are modelled here over the character
list of the Lean string so that every definition reduces in the kernel. -/

/-- Lowercase a string character by character, as String.prototype.toLowerCase
does for the ASCII range used by the code. -/
def jsToLower (s : String) : String :=
  ⟨s.data.map Char.toLower⟩

/-- Drop leading whitespace characters. -/
def dropLeadingWs (cs : List Char) : List Char :=
  cs.dropWhile Char.isWhitespace

/-- Model of String.prototype.trim: strip whitespace on both ends. -/
def jsTrim (s : String) : String :=
  ⟨(dropLeadingWs ((dropLeadingWs s.data.reverse).reverse))⟩

/-- Split a character list on a separator character, keeping empty segments,
as String.prototype.split with a one-character separator does. -/
def splitListOn (sep : Char) : List Char → List (List Char)
  | [] => [[]]
  | c :: cs =>
    let r := splitListOn sep cs
    if c = sep then [] :: r
    else
      match r with
      | [] => [[c]]
      | h :: t => (c :: h) :: t

/-- Model of content.split for a one-character separator string. -/
def jsSplitChar (sep : Char) (s : String) : List String :=
  (splitListOn sep s.data).map (fun cs => ⟨cs⟩)

/-- Decide whether the first list is a prefix of the second one. -/
def listPrefixOf : List Char → List Char → Bool
  | [], _ => true
  | _ :: _, [] => false
  | p :: ps, c :: cs => p = c && listPrefixOf ps cs

/-- Decide whether the pattern occurs as a contiguous run inside the list. -/
def listInfixOf (pat : List Char) : List Char → Bool
  | [] => listPrefixOf pat []
  | c :: cs => listPrefixOf pat (c :: cs) || listInfixOf pat cs

/-- Model of String.prototype.includes. -/
def jsIncludes (s pat : String) : Bool :=
  listInfixOf pat.data s.data

/-- Model of String.prototype.startsWith. -/
def jsStartsWith (s pat : String) : Bool :=
  listPrefixOf pat.data s.data

/-- Model of String.prototype.endsWith. -/
def jsEndsWith (s pat : String) : Bool :=
  listPrefixOf pat.data.reverse s.data.reverse

/-- Model of node path.basename: the final slash-separated segment. -/
def basename (p : String) : String :=
  ((jsSplitChar '/' p).getLast?).getD p

/-! ## JavaScript values

JSON.parse yields null, booleans, numbers, strings, arrays or objects;
property access on a missing key yields undefined.  Numeric payloads are
modelled as integers (every value the pipeline reads out of them is compared
or summed, never divided).  Exceptions raised by property access on
null/undefined are modelled with Except. -/

inductive JsVal where
  | undefined
  | null
  | bool (b : Bool)
  | num (n : Int)
  | str (s : String)
  | arr (elems : List JsVal)
  | obj (fields : List (String × JsVal))

/-- Property access on a value that is known not to throw (anything except
null and undefined): objects look the key up, everything else yields
undefined, as in JavaScript. -/
def JsVal.fieldD (v : JsVal) (name : String) : JsVal :=
  match v with
  | .obj fields => (fields.lookup name).getD .undefined
  | _ => .undefined

/-- Property access as an effect: reading a member of null or undefined
throws a TypeError, modelled as Except.error. -/
def JsVal.getField (v : JsVal) (name : String) : Except Unit JsVal :=
  match v with
  | .null => .error ()
  | .undefined => .error ()
  | _ => .ok (v.fieldD name)

/-- Model of asRecord from parser.ts: a value passes when it is truthy and
typeof gives object, which holds exactly for objects and arrays. -/
def asRecord (value : JsVal) : Option JsVal :=
  match value with
  | .obj _ => some value
  | .arr _ => some value
  | _ => none

/-- Model of asString from parser.ts. -/
def asString (value : JsVal) : String :=
  match value with
  | .str s => s
  | _ => ""

/-- Model of the pattern typeof v === number ? v : 0 used in parser.ts. -/
def asNumD (value : JsVal) : Int :=
  match value with
  | .num n => n
  | _ => 0

/-- Model of the pattern typeof v === number ? v : undefined. -/
def asNumOpt (value : JsVal) : Option Int :=
  match value with
  | .num n => some n
  | _ => none

/-- JavaScript truthiness, as used by Boolean(message.isError) and by the
pattern asString(x) || undefined. -/
def jsTruthy (value : JsVal) : Bool :=
  match value with
  | .undefined => false
  | .null => false
  | .bool b => b
  | .num n => n != 0
  | .str s => s ≠ ""
  | .arr _ => true
  | .obj _ => true

/-! ## The typed entry model (src/types/index.ts) -/

inductive Role where
  | user
  | assistant
  | toolResult
deriving DecidableEq, Repr

/-- Discriminator-free rendering of a role, as interpolated into strings. -/
def Role.name : Role → String
  | .user => "user"
  | .assistant => "assistant"
  | .toolResult => "toolResult"

inductive ThinkingLevel where
  | off
  | low
  | medium
  | high
deriving DecidableEq, Repr

inductive ContentBlock where
  | text (t : String)
  | thinking (t : String)
  | toolCall (id name : String) (arguments : JsVal)
  | image (source : JsVal)

/-- Shared base fields of every entry (id, nullable parentId, timestamp). -/
structure BaseFields where
  id : String
  parentId : Option String
  timestamp : String

inductive DetailStatus where
  | completed
  | error
  | running
deriving DecidableEq, Repr

structure ToolResultDetails where
  status : DetailStatus
  exitCode : Option Int
  durationMs : Option Int

structure UsageStats where
  input : Int
  output : Int
  cacheRead : Int
  cacheWrite : Int
  totalTokens : Int

structure MessageData where
  role : Role
  content : List ContentBlock
  api : Option String
  provider : Option String
  model : Option String
  stopReason : Option String
  toolCallId : Option String
  toolName : Option String
  details : Option ToolResultDetails
  isError : Bool
  usage : Option UsageStats

inductive AuditEntry where
  | session (base : BaseFields) (version : Int) (cwd : String)
  | modelChange (base : BaseFields) (provider modelId : String)
  | thinkingLevelChange (base : BaseFields) (level : ThinkingLevel)
  | custom (base : BaseFields) (customType : String) (data : JsVal)
  | compaction (base : BaseFields) (summary firstKeptEntryId : String)
      (tokensBefore : Int)
  | message (base : BaseFields) (msg : MessageData)

/-- The base fields of any entry. -/
def AuditEntry.base : AuditEntry → BaseFields
  | .session b _ _ => b
  | .modelChange b _ _ => b
  | .thinkingLevelChange b _ => b
  | .custom b _ _ => b
  | .compaction b _ _ _ => b
  | .message b _ => b

/-- Timestamp string of an entry. -/
def AuditEntry.timestamp (e : AuditEntry) : String :=
  e.base.timestamp

/-- The type discriminator string of an entry, as read back by the viewers. -/
def AuditEntry.typeName : AuditEntry → String
  | .session .. => "session"
  | .modelChange .. => "model_change"
  | .thinkingLevelChange .. => "thinking_level_change"
  | .custom .. => "custom"
  | .compaction .. => "compaction"
  | .message .. => "message"

/-- Replace the timestamp of an entry, leaving every other field alone.  Used
to state that per-session statistics do not depend on timestamps. -/
def AuditEntry.withTimestamp (ts : String) : AuditEntry → AuditEntry
  | .session b v c => .session { b with timestamp := ts } v c
  | .modelChange b p m => .modelChange { b with timestamp := ts } p m
  | .thinkingLevelChange b l => .thinkingLevelChange { b with timestamp := ts } l
  | .custom b c d => .custom { b with timestamp := ts } c d
  | .compaction b s f t => .compaction { b with timestamp := ts } s f t
  | .message b m => .message { b with timestamp := ts } m

/-! ## Entry parser (src/lib/parser.ts) -/

/-- Model of normalizeBase: reads id, parentId and timestamp off the raw
value; throws if the raw value is null or undefined. -/
def normalizeBase (raw : JsVal) : Except Unit BaseFields := do
  let idV ← raw.getField "id"
  let pidV ← raw.getField "parentId"
  let tsV ← raw.getField "timestamp"
  pure
    { id := asString idV
      parentId :=
        match pidV with
        | .str s => some s
        | _ => none
      timestamp := asString tsV }

/-- Model of parseContentBlock: a record with a recognized type becomes the
matching block, anything else degrades to an empty text block. -/
def parseContentBlock (block : JsVal) : ContentBlock :=
  let type := asString (block.fieldD "type")
  if type = "text" then .text (asString (block.fieldD "text"))
  else if type = "thinking" then .thinking (asString (block.fieldD "text"))
  else if type = "toolCall" then
    .toolCall (asString (block.fieldD "id")) (asString (block.fieldD "name"))
      ((asRecord (block.fieldD "arguments")).getD (.obj []))
  else if type = "image" then .image (block.fieldD "source")
  else .text ""

/-- Model of the optional-string pattern asString(x) || undefined. -/
def optString (v : JsVal) : Option String :=
  if asString v = "" then none else some (asString v)

/-- Model of the details sub-object normalization in parseMessageEntry. -/
def parseDetails (detailsV : JsVal) : ToolResultDetails :=
  { status :=
      if jsTruthy (detailsV.fieldD "status") then
        match detailsV.fieldD "status" with
        | .str "completed" => .completed
        | .str "error" => .error
        | .str "running" => .running
        | _ => .completed
      else .completed
    exitCode := asNumOpt (detailsV.fieldD "exitCode")
    durationMs := asNumOpt (detailsV.fieldD "durationMs") }

/-- Model of the usage sub-object normalization in parseMessageEntry. -/
def parseUsage (usageV : JsVal) : UsageStats :=
  { input := asNumD (usageV.fieldD "input")
    output := asNumD (usageV.fieldD "output")
    cacheRead := asNumD (usageV.fieldD "cacheRead")
    cacheWrite := asNumD (usageV.fieldD "cacheWrite")
    totalTokens := asNumD (usageV.fieldD "totalTokens") }

/-- Model of parseMessageEntry.  The raw content array is mapped through
asRecord, non-records are filtered out, and the surviving records are parsed
independently by parseContentBlock. -/
def parseMessageEntry (raw : JsVal) : Except Unit AuditEntry := do
  let base ← normalizeBase raw
  let msgV ← raw.getField "message"
  let message := (asRecord msgV).getD (.obj [])
  let roleRaw := asString (message.fieldD "role")
  let role : Role :=
    if roleRaw = "assistant" then .assistant
    else if roleRaw = "toolResult" then .toolResult
    else .user
  let contentRaw :=
    match message.fieldD "content" with
    | .arr xs => xs
    | _ => []
  let content := (contentRaw.filterMap asRecord).map parseContentBlock
  pure (.message base
    { role := role
      content := content
      api := optString (message.fieldD "api")
      provider := optString (message.fieldD "provider")
      model := optString (message.fieldD "model")
      stopReason := optString (message.fieldD "stopReason")
      toolCallId := optString (message.fieldD "toolCallId")
      toolName := optString (message.fieldD "toolName")
      details := (asRecord (message.fieldD "details")).map parseDetails
      isError := jsTruthy (message.fieldD "isError")
      usage := (asRecord (message.fieldD "usage")).map parseUsage })

/-- The six recognized type discriminators. -/
def recognizedTypes : List String :=
  ["session", "model_change", "thinking_level_change", "custom", "compaction",
   "message"]

/-- Model of discriminateEntry: switch on the type field; unrecognized
discriminators yield none; member access on a non-object raw value throws
exactly when the raw value is null. -/
def discriminateEntry (raw : JsVal) : Except Unit (Option AuditEntry) := do
  let tV ← raw.getField "type"
  let type := asString tV
  let base ← normalizeBase raw
  match type with
  | "session" => do
      let v ← raw.getField "version"
      let c ← raw.getField "cwd"
      pure (some (.session base (asNumD v) (asString c)))
  | "model_change" => do
      let p ← raw.getField "provider"
      let m ← raw.getField "modelId"
      pure (some (.modelChange base (asString p) (asString m)))
  | "thinking_level_change" => do
      let lv ← raw.getField "thinkingLevel"
      let level : ThinkingLevel :=
        match lv with
        | .str "off" => .off
        | .str "low" => .low
        | .str "medium" => .medium
        | .str "high" => .high
        | _ => .off
      pure (some (.thinkingLevelChange base level))
  | "custom" => do
      let ct ← raw.getField "customType"
      let d ← raw.getField "data"
      pure (some (.custom base (asString ct) ((asRecord d).getD (.obj []))))
  | "compaction" => do
      let s ← raw.getField "summary"
      let fk ← raw.getField "firstKeptEntryId"
      let tb ← raw.getField "tokensBefore"
      pure (some (.compaction base (asString s) (asString fk) (asNumD tb)))
  | "message" => do
      let e ← parseMessageEntry raw
      pure (some e)
  | _ => pure none

/-- Model of parseEntry.  The JSON.parse platform call is a parameter
returning none where JSON.parse would throw.  The try/catch block is the
Except match: any exception inside the body becomes the absent result, so no
exception reaches the caller. -/
def parseEntry (jsParse : String → Option JsVal) (line : String) :
    Option AuditEntry :=
  if (jsTrim line) = "" then none
  else
    match jsParse line with
    | none => none
    | some raw =>
      match discriminateEntry raw with
      | .error _ => none
      | .ok r => r

/-- Model of parseJsonlContent: split on newline and keep the parses. -/
def parseJsonlContent (jsParse : String → Option JsVal) (content : String) :
    List AuditEntry :=
  (jsSplitChar '\n' content).filterMap (parseEntry jsParse)

/-! ## Session statistics (calculateStats in the session loader) -/

/-- Statistics accumulated by one fold over the entries.  Every field is a
JavaScript number, modelled as an integer. -/
structure SessionStats where
  totalTokens : Int
  inputTokens : Int
  outputTokens : Int
  messageCount : Int
  userMessages : Int
  assistantMessages : Int
  toolCalls : Int
  toolResults : Int
  errors : Int
deriving DecidableEq, Repr

/-- The all-zero initial statistics record. -/
def statsInit : SessionStats :=
  { totalTokens := 0, inputTokens := 0, outputTokens := 0, messageCount := 0
    userMessages := 0, assistantMessages := 0, toolCalls := 0, toolResults := 0
    errors := 0 }

/-- Decide whether a content block is a tool call. -/
def ContentBlock.isToolCall : ContentBlock → Bool
  | .toolCall .. => true
  | _ => false

/-- One step of the calculateStats fold, translated from the loop body. -/
def statsStep (stats : SessionStats) (entry : AuditEntry) : SessionStats :=
  match entry with
  | .message _ m =>
    let stats := { stats with messageCount := stats.messageCount + 1 }
    match m.role with
    | .user => { stats with userMessages := stats.userMessages + 1 }
    | .assistant =>
      let toolCalls := m.content.filter ContentBlock.isToolCall
      let stats :=
        { stats with
            assistantMessages := stats.assistantMessages + 1
            toolCalls := stats.toolCalls + toolCalls.length }
      match m.usage with
      | some u =>
          { stats with
              inputTokens := stats.inputTokens + u.input
              outputTokens := stats.outputTokens + u.output
              totalTokens := stats.totalTokens + u.totalTokens }
      | none => stats
    | .toolResult =>
      let stats := { stats with toolResults := stats.toolResults + 1 }
      if m.isError then { stats with errors := stats.errors + 1 } else stats
  | _ => stats

/-- Model of calculateStats: one fold over the entry list. -/
def calculateStats (entries : List AuditEntry) : SessionStats :=
  entries.foldl statsStep statsInit

/-! ## Directory scan and session summaries (session loader) -/

/-- Model of isDeletedFile: the filename carries the deleted-marker token. -/
def isDeletedFile (filename : String) : Bool :=
  jsIncludes filename ".deleted."

/-- The session-file enumeration filter applied by loadAgents to one agents
sessions directory listing. -/
def enumerateSessionFiles (sessionFiles : List String) : List String :=
  sessionFiles.filter (fun f => jsEndsWith f ".jsonl" && !(jsIncludes f ".deleted."))

/-- The summary fields the verified claims read.  Presentation-only fields
(relative ages, token formatting, model resolution) are omitted. -/
structure SessionSummaryCore where
  eventCount : Nat
  messageCount : Int
  toolCallCount : Int
  toolResultCount : Int
  errorCount : Int
  compactionCount : Nat
  isDeleted : Bool

/-- Pure core of loadSessionSummary: the file content and the JSON.parse
platform call are parameters; file reads that fail are handled by the caller
and never reach this computation. -/
def loadSessionSummary (jsParse : String → Option JsVal)
    (filePath content : String) : SessionSummaryCore :=
  let entries := parseJsonlContent jsParse content
  let stats := calculateStats entries
  let filename := basename filePath
  { eventCount := entries.length
    messageCount := stats.messageCount
    toolCallCount := stats.toolCalls
    toolResultCount := stats.toolResults
    errorCount := stats.errors
    compactionCount := (entries.filter (fun e => e.typeName = "compaction")).length
    isDeleted := isDeletedFile filename }

/-! ## Global event merge (useSessions hook) -/

/-- Model of isValidEventTimestamp.  Date parsing is a platform facility,
passed in as a function returning none where getTime would give NaN. -/
def isValidEventTimestamp (parseDate : String → Option Int) (now : Int)
    (timestamp : String) : Bool :=
  match parseDate timestamp with
  | none => false
  | some ts => if ts ≤ 0 then false else decide (ts ≤ now + 5 * 60 * 1000)

/-- The summary fields the merge loop reads off each session. -/
structure SessionSummaryRef where
  agentName : String
  id : String
  filePath : String
  timestamp : Int

structure GlobalEventEntry where
  entry : AuditEntry
  agentName : String
  sessionId : String
  sessionFilePath : String
  sessionTimestamp : Int

/-- The event-collection loop of preloadAllEvents: for each session that
loads, every entry with a valid timestamp is tagged and emitted; sessions
that fail to load (load gives none) are skipped. -/
def collectGlobalEvents (parseDate : String → Option Int) (now : Int)
    (load : SessionSummaryRef → Option (List AuditEntry))
    (sessionList : List SessionSummaryRef) : List GlobalEventEntry :=
  sessionList.flatMap (fun session =>
    match load session with
    | none => []
    | some entries =>
      (entries.filter
        (fun e => isValidEventTimestamp parseDate now e.timestamp)).map
        (fun e =>
          { entry := e
            agentName := session.agentName
            sessionId := session.id
            sessionFilePath := session.filePath
            sessionTimestamp := session.timestamp }))

/-- Model of preloadAllEvents: collect, then sort by timestamp descending. -/
def preloadAllEvents (parseDate : String → Option Int) (now : Int)
    (load : SessionSummaryRef → Option (List AuditEntry))
    (sessionList : List SessionSummaryRef) : List GlobalEventEntry :=
  (collectGlobalEvents parseDate now load sessionList).mergeSort
    (fun a b =>
      (parseDate b.entry.timestamp).getD 0 ≤ (parseDate a.entry.timestamp).getD 0)

/-! ## Tool-name classification (getToolCategory in lib/utils.ts) -/

inductive ToolCategory where
  | file
  | search
  | exec
  | web
  | subagent
  | mcp
  | other
deriving DecidableEq, Repr

def fileTools : List String := ["read", "write", "edit", "notebookedit"]

def searchTools : List String := ["glob", "grep", "rg"]

def execTools : List String := ["bash", "exec", "run_background", "check_background"]

def webTools : List String := ["websearch", "webfetch", "web_search", "web_fetch", "http"]

def subagentTools : List String :=
  ["task", "sessions_spawn", "sessions_list", "sessions_history",
   "delegate_task", "call_agent"]

def mcpTools : List String := ["mcp__"]

/-- Model of getToolCategory: lowercase the name, then try the keyword
groups in order; the mcp group matches by prefix, the others by substring. -/
def getToolCategory (toolName : String) : ToolCategory :=
  let normalized := jsToLower toolName
  if fileTools.any (fun t => jsIncludes normalized t) then .file
  else if searchTools.any (fun t => jsIncludes normalized t) then .search
  else if execTools.any (fun t => jsIncludes normalized t) then .exec
  else if webTools.any (fun t => jsIncludes normalized t) then .web
  else if subagentTools.any (fun t => jsIncludes normalized t) then .subagent
  else if mcpTools.any (fun t => jsStartsWith normalized t) then .mcp
  else .other

inductive ToolMatchKind where
  | substrRule
  | prefixRule
deriving DecidableEq, Repr

structure ToolRule where
  category : ToolCategory
  kind : ToolMatchKind
  keywords : List String

/-- The ordered keyword table described by the spec. -/
def toolKeywordTable : List ToolRule :=
  [⟨.file, .substrRule, fileTools⟩,
   ⟨.search, .substrRule, searchTools⟩,
   ⟨.exec, .substrRule, execTools⟩,
   ⟨.web, .substrRule, webTools⟩,
   ⟨.subagent, .substrRule, subagentTools⟩,
   ⟨.mcp, .prefixRule, mcpTools⟩]

/-- Decide whether one table rule matches a normalized tool name. -/
def ruleMatches (normalized : String) (r : ToolRule) : Bool :=
  match r.kind with
  | .substrRule => r.keywords.any (fun t => jsIncludes normalized t)
  | .prefixRule => r.keywords.any (fun t => jsStartsWith normalized t)

/-- Classification as the spec words it: the first matching rule of the
ordered table wins, with other as the fallback.  Stated separately from
getToolCategory so the two can be compared. -/
def firstMatchCategory (toolName : String) : ToolCategory :=
  match toolKeywordTable.find? (ruleMatches (jsToLower toolName)) with
  | some r => r.category
  | none => .other

/-! ## Fuzzy matching (fuzzyMatch in lib/utils.ts) -/

/-- Greedy subsequence scan over character lists: consume the haystack left
to right, advancing in the query on every character match. -/
def fuzzyCore : List Char → List Char → Bool
  | [], _ => true
  | _ :: _, [] => false
  | q :: qs, h :: hs => if q = h then fuzzyCore qs hs else fuzzyCore (q :: qs) hs

/-- Modelled from the spec: the definition of fuzzyMatch lives in
src/lib/utils.ts, which is absent from the provided sources (only its call
sites appear).  Per the spec it is a case-insensitive ordered-subsequence
containment test: the query matches the haystack iff every character of the
query appears, case-insensitively, in the haystack in order; the empty query
always matches. -/
def fuzzyMatch (haystack query : String) : Bool :=
  fuzzyCore (jsToLower query).data (jsToLower haystack).data

/-! ## Per-session filter engine (useFilter hook) -/

inductive EntryTypeFilter where
  | all
  | user
  | assistant
  | tool
  | system
deriving DecidableEq, Repr

structure FilterState where
  entryType : EntryTypeFilter
  searchQuery : String

/-- Advanced facet state; none models the all choice of the source union. -/
structure AdvancedFilterState where
  toolCategory : Option ToolCategory
  toolNameQuery : String
  onlyErrors : Bool
  role : Option Role

/-- The entry-type facet body (only consulted when the facet is active). -/
def entryTypePred (t : EntryTypeFilter) (entry : AuditEntry) : Bool :=
  match entry with
  | .message _ m =>
    match t with
    | .user => m.role = .user
    | .assistant => m.role = .assistant
    | .tool => m.role = .toolResult
    | _ => true
  | _ => t = .system

/-- The free-text facet of useFilter: fuzzy match against the joined text
blocks, or against any tool-call name; non-message entries never match. -/
def searchPred (searchQuery : String) (entry : AuditEntry) : Bool :=
  let query := jsToLower searchQuery
  match entry with
  | .message _ m =>
    let textContent :=
      jsToLower (String.intercalate " "
        (m.content.filterMap (fun b =>
          match b with
          | .text t => some t
          | _ => none)))
    if fuzzyMatch textContent query then true
    else
      (m.content.filterMap (fun b =>
        match b with
        | .toolCall _ name _ => some name
        | _ => none)).any (fun name => fuzzyMatch (jsToLower name) query)
  | _ => false

/-- The role facet body. -/
def rolePred (role : Role) (entry : AuditEntry) : Bool :=
  match entry with
  | .message _ m => m.role = role
  | _ => false

/-- The only-errors facet body. -/
def onlyErrorsPred (entry : AuditEntry) : Bool :=
  match entry with
  | .message _ m => m.role = .toolResult && m.isError
  | _ => false

/-- The tool-category facet body. -/
def toolCategoryPred (c : ToolCategory) (entry : AuditEntry) : Bool :=
  match entry with
  | .message _ m =>
    match m.role with
    | .assistant =>
      m.content.any (fun b =>
        match b with
        | .toolCall _ name _ => getToolCategory name = c
        | _ => false)
    | .toolResult => getToolCategory (m.toolName.getD "") = c
    | _ => false
  | _ => false

/-- The tool-name facet body. -/
def toolNamePred (toolNameQuery : String) (entry : AuditEntry) : Bool :=
  let toolNeedle := jsToLower toolNameQuery
  match entry with
  | .message _ m =>
    match m.role with
    | .assistant =>
      m.content.any (fun b =>
        match b with
        | .toolCall _ name _ => fuzzyMatch (jsToLower name) toolNeedle
        | _ => false)
    | .toolResult => fuzzyMatch (jsToLower (m.toolName.getD "")) toolNeedle
    | _ => false
  | _ => false

/-- Model of the filteredEntries chain of useFilter: each active facet is one
filter pass over the result of the previous one, in source order. -/
def filteredEntries (fs : FilterState) (afs : AdvancedFilterState)
    (entries : List AuditEntry) : List AuditEntry :=
  let r := entries
  let r := if fs.entryType = .all then r else r.filter (entryTypePred fs.entryType)
  let r := if fs.searchQuery = "" then r else r.filter (searchPred fs.searchQuery)
  let r :=
    match afs.role with
    | none => r
    | some role => r.filter (rolePred role)
  let r := if afs.onlyErrors then r.filter onlyErrorsPred else r
  let r :=
    match afs.toolCategory with
    | none => r
    | some c => r.filter (toolCategoryPred c)
  let r :=
    if jsTrim afs.toolNameQuery = "" then r
    else r.filter (toolNamePred afs.toolNameQuery)
  r

/-- The facet predicates that are active for a given filter state, in the
order the source applies them. -/
def activePasses (fs : FilterState) (afs : AdvancedFilterState) :
    List (AuditEntry → Bool) :=
  (if fs.entryType = .all then [] else [entryTypePred fs.entryType]) ++
  (if fs.searchQuery = "" then [] else [searchPred fs.searchQuery]) ++
  (match afs.role with
   | none => []
   | some role => [rolePred role]) ++
  (if afs.onlyErrors then [onlyErrorsPred] else []) ++
  (match afs.toolCategory with
   | none => []
   | some c => [toolCategoryPred c]) ++
  (if jsTrim afs.toolNameQuery = "" then []
   else [toolNamePred afs.toolNameQuery])

/-- Apply a list of facet predicates as successive filter passes. -/
def applyPasses (passes : List (α → Bool)) (l : List α) : List α :=
  passes.foldl (fun acc p => acc.filter p) l

/-! ## Global filter engine (App.tsx) -/

inductive TimeWindow where
  | m15
  | h1
  | h6
  | h24
  | all
deriving DecidableEq, Repr

/-- Model of eventWindowMs. -/
def eventWindowMs : TimeWindow → Option Int
  | .m15 => some (15 * 60 * 1000)
  | .h1 => some (60 * 60 * 1000)
  | .h6 => some (6 * 60 * 60 * 1000)
  | .h24 => some (24 * 60 * 60 * 1000)
  | .all => none

/-- The all-events facet state; none models the all choice, and the event
type facet carries the discriminator string it compares against. -/
structure AllEventsFilter where
  timeWindow : TimeWindow
  eventType : Option String
  toolCategory : Option ToolCategory
  toolNameQuery : String
  onlyErrors : Bool
  query : String

/-- Model of eventMatchesCategory. -/
def eventMatchesCategory (event : GlobalEventEntry)
    (category : Option ToolCategory) : Bool :=
  match category with
  | none => true
  | some c =>
    match event.entry with
    | .message _ m =>
      match m.role with
      | .assistant =>
        m.content.any (fun b =>
          match b with
          | .toolCall _ name _ => getToolCategory name = c
          | _ => false)
      | .toolResult => getToolCategory (m.toolName.getD "") = c
      | _ => false
    | _ => false

/-- The base portion of the searchable text of one global event. -/
def eventBaseText (event : GlobalEventEntry) : String :=
  String.intercalate " "
    [event.agentName, event.sessionId, event.entry.typeName,
     event.entry.base.id, event.entry.timestamp]

/-- Model of eventSearchText.  JSON.stringify is a platform facility, passed
in once for whole entries and once for tool-call argument objects. -/
def eventSearchText (stringify : AuditEntry → String)
    (argsStringify : JsVal → String) (event : GlobalEventEntry) : String :=
  let base := eventBaseText event
  match event.entry with
  | .message _ m =>
    let textBlocks :=
      String.intercalate " "
        (m.content.filterMap (fun b =>
          match b with
          | .text t => some t
          | _ => none))
    let toolBlocks :=
      String.intercalate " "
        (m.content.filterMap (fun b =>
          match b with
          | .toolCall _ name args => some (name ++ " " ++ argsStringify args)
          | _ => none))
    jsToLower (base ++ " " ++ m.role.name ++ " " ++ m.toolName.getD "" ++ " " ++
      textBlocks ++ " " ++ toolBlocks)
  | _ => jsToLower (base ++ " " ++ stringify event.entry)

/-- The tool-name facet of the all-events filter: plain substring
containment on lowercased names. -/
def eventToolNameOk (event : GlobalEventEntry) (toolNeedle : String) : Bool :=
  match event.entry with
  | .message _ m =>
    match m.role with
    | .assistant =>
      m.content.any (fun b =>
        match b with
        | .toolCall _ name _ => jsIncludes (jsToLower name) toolNeedle
        | _ => false)
    | .toolResult => jsIncludes (jsToLower (m.toolName.getD "")) toolNeedle
    | _ => false
  | _ => false

/-- Decide whether an entry is an errored tool result. -/
def isErrorToolResult : AuditEntry → Bool
  | .message _ m => m.role = .toolResult && m.isError
  | _ => false

/-- Model of the filteredAllEvents single-pass predicate filter.  The time
window clause mirrors the source comparison now - ts > windowMs, which is
false when the timestamp does not parse (NaN comparisons are false), so such
events are not excluded by the window. -/
def filteredAllEvents (stringify : AuditEntry → String)
    (argsStringify : JsVal → String) (parseDate : String → Option Int)
    (now : Int) (f : AllEventsFilter) (events : List GlobalEventEntry) :
    List GlobalEventEntry :=
  let windowMs := eventWindowMs f.timeWindow
  let query := jsToLower (jsTrim f.query)
  let toolNeedle := jsToLower (jsTrim f.toolNameQuery)
  events.filter (fun event =>
    let windowOk : Bool :=
      match windowMs, parseDate event.entry.timestamp with
      | some w, some ts => !(now - ts > w)
      | _, _ => true
    let typeMismatch : Bool :=
      match f.eventType with
      | some t => event.entry.typeName != t
      | none => false
    if !windowOk then false
    else if typeMismatch then false
    else if !(eventMatchesCategory event f.toolCategory) then false
    else if toolNeedle ≠ "" && !(eventToolNameOk event toolNeedle) then false
    else if f.onlyErrors && !(isErrorToolResult event.entry) then false
    else if query ≠ "" &&
        !(jsIncludes (eventSearchText stringify argsStringify event) query) then
      false
    else true)

/-! ## Histogram bucketer (AllEventsViewer.tsx) -/

structure Histogram where
  counts : List Nat
  startLabel : String
  endLabel : String
  maxCount : Nat

/-- The bucket index of one timestamp: floor of the normalized position
scaled by the bucket count, clamped above to the last bucket.  The division
is exact rational arithmetic. -/
def bucketIndexOf (bucketCount : Nat) (minTs range ts : Int) : Nat :=
  let normalized : ℚ := ((ts : ℚ) - (minTs : ℚ)) / (range : ℚ)
  min (bucketCount - 1) (⌊normalized * (bucketCount : ℚ)⌋).toNat

/-- The min scan of buildHistogram over the parsed timestamps, starting at
positive infinity (none): an unparsable timestamp never wins a comparison. -/
def minScanStep (acc ts? : Option Int) : Option Int :=
  match ts?, acc with
  | some t, none => some t
  | some t, some m => if t < m then some t else some m
  | none, acc => acc

def maxScanStep (acc ts? : Option Int) : Option Int :=
  match ts?, acc with
  | some t, none => some t
  | some t, some m => if t > m then some t else some m
  | none, acc => acc

def histMinTs (timestamps : List (Option Int)) : Option Int :=
  timestamps.foldl minScanStep none

/-- The max scan of buildHistogram over the parsed timestamps. -/
def histMaxTs (timestamps : List (Option Int)) : Option Int :=
  timestamps.foldl maxScanStep none

/-- One step of the counting loop: a parsed timestamp increments the slot
its bucket function picks, an unparsable one touches no real array slot. -/
def tallyStep (f : Int → Nat) (counts : List Nat) (ts? : Option Int) :
    List Nat :=
  match ts? with
  | none => counts
  | some t => counts.set (f t) (counts.getD (f t) 0 + 1)

/-- The counting loop of buildHistogram. -/
def histCounts (bucketCount : Nat) (minTs range : Int)
    (timestamps : List (Option Int)) : List Nat :=
  timestamps.foldl (tallyStep (bucketIndexOf bucketCount minTs range))
    (List.replicate bucketCount 0)

/-- Model of buildHistogram.  Timestamps that do not parse are skipped by
the min/max scan (NaN comparisons are false) and touch no real array slot in
the counting loop; should no timestamp parse at all on a non-empty input,
the counts stay all zero and the source would render NaN labels, shown here
as the placeholder. -/
def buildHistogram (parseDate : String → Option Int)
    (formatAxisTime : Int → String) (events : List GlobalEventEntry)
    (histogramBuckets : Nat) : Histogram :=
  let bucketCount := max 8 histogramBuckets
  if events.length = 0 then
    { counts := List.replicate bucketCount 0
      startLabel := "--:--", endLabel := "--:--", maxCount := 0 }
  else
    let timestamps := events.map (fun e => parseDate e.entry.timestamp)
    match histMinTs timestamps, histMaxTs timestamps with
    | some mn, some mx =>
      let range : Int := max (mx - mn) 1
      let counts := histCounts bucketCount mn range timestamps
      { counts := counts
        startLabel := formatAxisTime mn
        endLabel := formatAxisTime mx
        maxCount := counts.foldl (fun m c => if c > m then c else m) 0 }
    | _, _ =>
      { counts := List.replicate bucketCount 0
        startLabel := "--:--", endLabel := "--:--", maxCount := 0 }

/-! ## Shared lemmas -/

theorem jsIncludes_empty (s : String) : jsIncludes s "" = true := by
  show listInfixOf [] s.data = true
  cases s.data with
  | nil => rfl
  | cons c cs => simp [listInfixOf, listPrefixOf]

theorem applyPasses_nil (l : List α) : applyPasses [] l = l := rfl

theorem applyPasses_cons (p : α → Bool) (ps : List (α → Bool)) (l : List α) :
    applyPasses (p :: ps) l = applyPasses ps (l.filter p) := rfl

theorem applyPasses_append (ps qs : List (α → Bool)) (l : List α) :
    applyPasses (ps ++ qs) l = applyPasses qs (applyPasses ps l) :=
  List.foldl_append _ _ _ _

/-- Chained filter passes are a single pass with the conjunction of all the
predicates. -/
theorem applyPasses_eq_filter_all (ps : List (α → Bool)) (l : List α) :
    applyPasses ps l = l.filter (fun x => ps.all (fun p => p x)) := by
  induction ps generalizing l with
  | nil => simp [applyPasses_nil]
  | cons p ps ih =>
    rw [applyPasses_cons, ih, List.filter_filter]
    refine List.filter_congr ?_
    intro x _
    simp [List.all_cons, Bool.and_comm]

/-- The conjunction of a list of predicates does not depend on their order. -/
theorem perm_all_eq {α : Type u} {ps ps' : List (α → Bool)} (h : ps.Perm ps') (x : α) :
    ps.all (fun p => p x) = ps'.all (fun p => p x) := by
  induction h with
  | nil => rfl
  | cons p _ ih => simp [List.all_cons, ih]
  | swap p q l =>
    simp [List.all_cons, ← Bool.and_assoc, Bool.and_comm]
  | trans _ _ ih1 ih2 => exact ih1.trans ih2

/-- Reordering the passes does not change the filtered result. -/
theorem applyPasses_perm {ps ps' : List (α → Bool)} (h : ps.Perm ps')
    (l : List α) : applyPasses ps l = applyPasses ps' l := by
  rw [applyPasses_eq_filter_all, applyPasses_eq_filter_all]
  exact List.filter_congr (fun x _ => perm_all_eq h x)

/-- The filteredEntries chain of useFilter is exactly the successive
application of its active facet passes. -/
theorem filteredEntries_eq_applyPasses (fs : FilterState)
    (afs : AdvancedFilterState) (entries : List AuditEntry) :
    filteredEntries fs afs entries = applyPasses (activePasses fs afs) entries := by
  unfold filteredEntries activePasses
  simp only [applyPasses_append]
  by_cases h1 : fs.entryType = .all <;>
    by_cases h2 : fs.searchQuery = "" <;>
      rcases hr : afs.role with _ | role <;>
        by_cases h4 : afs.onlyErrors <;>
          rcases hc : afs.toolCategory with _ | c <;>
            by_cases h6 : jsTrim afs.toolNameQuery = "" <;>
              simp [h1, h2, h4, h6, applyPasses_nil, applyPasses_cons]

theorem fuzzyCore_iff_sublist :
    ∀ (hs qs : List Char), fuzzyCore qs hs = true ↔ qs.Sublist hs := by
  intro hs
  induction hs with
  | nil =>
    intro qs
    cases qs with
    | nil => simp [fuzzyCore]
    | cons q qs => simp [fuzzyCore]
  | cons h hs ih =>
    intro qs
    cases qs with
    | nil => simp [fuzzyCore]
    | cons q qs =>
      by_cases hq : q = h
      · subst hq
        simp [fuzzyCore, ih qs, List.cons_sublist_cons]
      · rw [show fuzzyCore (q :: qs) (h :: hs) = fuzzyCore (q :: qs) hs by
            simp [fuzzyCore, hq]]
        rw [ih (q :: qs)]
        constructor
        · intro hsub
          exact hsub.cons h
        · intro hsub
          cases hsub with
          | cons _ htail => exact htail
          | cons₂ _ _ => exact absurd rfl hq

/-! ## Fixtures used by witnesses -/

/-- An empty message payload to build fixture entries from. -/
def mkMessage (role : Role) (content : List ContentBlock) (isError : Bool) :
    MessageData :=
  ⟨role, content, none, none, none, none, none, none, none, isError, none⟩

def filterFixtureFS : FilterState := ⟨.user, ""⟩

def filterFixtureAFS : AdvancedFilterState := ⟨none, "", true, none⟩

def filterFixtureEntries : List AuditEntry :=
  [.session ⟨"s1", none, "t1"⟩ 1 "/w",
   .message ⟨"m1", none, "t2"⟩ (mkMessage .user [.text "hello"] false),
   .message ⟨"m2", none, "t3"⟩ (mkMessage .toolResult [] true)]

def filterFixturePasses : List (AuditEntry → Bool) :=
  [onlyErrorsPred, entryTypePred .user]

/-! ## Claims -/

/-- Claim C3: for every entry sequence and facet assignment, applying the
facet filters in any order produces the same result as a single pass keeping
exactly the entries satisfying the conjunction of all active facet
predicates, and the output preserves the relative input order (it is a
sublist of the input). -/
theorem useFilter_facets_conjunction (fs : FilterState)
    (afs : AdvancedFilterState) (entries : List AuditEntry)
    (passes : List (AuditEntry → Bool))
    (hperm : (activePasses fs afs).Perm passes) :
    filteredEntries fs afs entries
        = entries.filter (fun e => (activePasses fs afs).all (fun p => p e)) ∧
    applyPasses passes entries = filteredEntries fs afs entries ∧
    (filteredEntries fs afs entries).Sublist entries := by
  have h1 : filteredEntries fs afs entries
      = applyPasses (activePasses fs afs) entries :=
    filteredEntries_eq_applyPasses fs afs entries
  refine ⟨?_, ?_, ?_⟩
  · rw [h1, applyPasses_eq_filter_all]
  · rw [h1]
    exact (applyPasses_perm hperm entries).symm
  · rw [h1, applyPasses_eq_filter_all]
    exact List.filter_sublist entries

/-- Witness for C3: a concrete filter state with two active facets, applied
in the swapped order, on a concrete entry list. -/
theorem useFilter_facets_conjunction_witness :
    (activePasses filterFixtureFS filterFixtureAFS).Perm filterFixturePasses ∧
    (filteredEntries filterFixtureFS filterFixtureAFS filterFixtureEntries
        = filterFixtureEntries.filter
            (fun e =>
              (activePasses filterFixtureFS filterFixtureAFS).all
                (fun p => p e)) ∧
      applyPasses filterFixturePasses filterFixtureEntries
        = filteredEntries filterFixtureFS filterFixtureAFS filterFixtureEntries ∧
      (filteredEntries filterFixtureFS filterFixtureAFS
          filterFixtureEntries).Sublist filterFixtureEntries) := by
  have hlist : activePasses filterFixtureFS filterFixtureAFS
      = [entryTypePred .user, onlyErrorsPred] := rfl
  have hperm :
      (activePasses filterFixtureFS filterFixtureAFS).Perm filterFixturePasses := by
    rw [hlist]
    exact List.Perm.swap _ _ _
  exact ⟨hperm, useFilter_facets_conjunction _ _ _ _ hperm⟩

/-- Claim C9: the fuzzy match returns true exactly when the lowercased query
characters form a subsequence of the lowercased haystack characters; the
empty query always matches, rdfl matches ReadFile, flr does not. -/
theorem fuzzyMatch_spec (haystack query : String) :
    (fuzzyMatch haystack query = true ↔
      ((jsToLower query).data).Sublist ((jsToLower haystack).data)) ∧
    fuzzyMatch haystack "" = true ∧
    fuzzyMatch "ReadFile" "rdfl" = true ∧
    fuzzyMatch "ReadFile" "flr" = false := by
  refine ⟨fuzzyCore_iff_sublist _ _, ?_, by decide, by decide⟩
  show fuzzyCore (jsToLower "").data (jsToLower haystack).data = true
  have h0 : (jsToLower "").data = [] := rfl
  rw [h0]
  simp [fuzzyCore]

/-- Claim C6: tool-name classification agrees with the first-match scan of
the ordered keyword table (mcp by prefix, the rest by substring on the
lowercased name), and mcp__search_docs classifies as mcp. -/
theorem getToolCategory_firstMatch (toolName : String) :
    getToolCategory toolName = firstMatchCategory toolName ∧
    getToolCategory "mcp__search_docs" = ToolCategory.mcp := by
  refine ⟨?_, by decide⟩
  simp only [getToolCategory, firstMatchCategory, toolKeywordTable, List.find?,
    ruleMatches]
  by_cases h1 : (fileTools.any fun t => jsIncludes (jsToLower toolName) t) = true
  · simp [h1]
  rw [Bool.not_eq_true] at h1
  simp only [h1]
  by_cases h2 : (searchTools.any fun t => jsIncludes (jsToLower toolName) t) = true
  · simp [h2]
  rw [Bool.not_eq_true] at h2
  simp only [h2]
  by_cases h3 : (execTools.any fun t => jsIncludes (jsToLower toolName) t) = true
  · simp [h3]
  rw [Bool.not_eq_true] at h3
  simp only [h3]
  by_cases h4 : (webTools.any fun t => jsIncludes (jsToLower toolName) t) = true
  · simp [h4]
  rw [Bool.not_eq_true] at h4
  simp only [h4]
  by_cases h5 : (subagentTools.any fun t => jsIncludes (jsToLower toolName) t) = true
  · simp [h5]
  rw [Bool.not_eq_true] at h5
  simp only [h5]
  by_cases h6 : (mcpTools.any fun t => jsStartsWith (jsToLower toolName) t) = true
  · simp [h6]
  rw [Bool.not_eq_true] at h6
  simp [h6]

/-- When no recognized discriminator can be read off the raw value,
discriminateEntry either throws (null raw value) or yields the absent
entry. -/
theorem discriminateEntry_unrecognized (raw : JsVal)
    (hty : ∀ t, raw.getField "type" = .ok t → asString t ∉ recognizedTypes) :
    discriminateEntry raw = .error () ∨ discriminateEntry raw = .ok none := by
  cases raw with
  | null => exact Or.inl rfl
  | undefined => exact Or.inl rfl
  | obj fields =>
    have h := hty _ rfl
    simp only [recognizedTypes, List.mem_cons, List.not_mem_nil, or_false,
      not_or] at h
    obtain ⟨hs, hm, htl, hc, hcp, hmsg⟩ := h
    refine Or.inr ?_
    simp only [discriminateEntry, JsVal.getField, normalizeBase, bind, pure,
      Except.bind, Except.pure]
  | bool b => exact Or.inr rfl
  | num n => exact Or.inr rfl
  | str s => exact Or.inr rfl
  | arr xs => exact Or.inr rfl

/-- Claim C2: for every blank line, line that JSON.parse rejects, and line
whose parse has no recognized type discriminator (including non-object
values such as null, whose member access throws inside the try block),
parseEntry yields the absent result; the catch around the body means no
exception reaches the caller. -/
theorem parseEntry_defensive (jsParse : String → Option JsVal) (line : String) :
    (jsTrim line = "" → parseEntry jsParse line = none) ∧
    (jsParse line = none → parseEntry jsParse line = none) ∧
    (∀ raw, jsParse line = some raw →
      (∀ t, raw.getField "type" = .ok t → asString t ∉ recognizedTypes) →
      parseEntry jsParse line = none) := by
  refine ⟨?_, ?_, ?_⟩
  · intro h
    simp [parseEntry, h]
  · intro h
    unfold parseEntry
    by_cases hb : jsTrim line = ""
    · simp [hb]
    · simp [hb, h]
  · intro raw hraw hty
    unfold parseEntry
    by_cases hb : jsTrim line = ""
    · simp [hb]
    simp only [hb, if_neg, ite_false, hraw]
    rcases discriminateEntry_unrecognized raw hty with h1 | h1 <;> simp [h1]

/-- A concrete JSON.parse substitute used by witnesses: rejects everything
except two fixed payloads. -/
def jpFixture : String → Option JsVal
  | "null" => some .null
  | "\x7b\"type\":\"bogus\"\x7d" => some (.obj [("type", .str "bogus")])
  | _ => none

/-- Witness for C2: a blank line, a line JSON.parse rejects, a null line and
an unrecognized-discriminator line all parse to the absent entry. -/
theorem parseEntry_defensive_witness :
    (jsTrim "   " = "" ∧ parseEntry jpFixture "   " = none) ∧
    (jpFixture "oops" = none ∧ parseEntry jpFixture "oops" = none) ∧
    parseEntry jpFixture "null" = none ∧
    parseEntry jpFixture "\x7b\"type\":\"bogus\"\x7d" = none := by
  refine ⟨⟨by decide, (parseEntry_defensive jpFixture "   ").1 (by decide)⟩,
          ⟨rfl, (parseEntry_defensive jpFixture "oops").2.1 rfl⟩, ?_, ?_⟩
  · refine (parseEntry_defensive jpFixture "null").2.2 .null rfl ?_
    intro t ht
    exact absurd ht (by simp [JsVal.getField])
  · refine (parseEntry_defensive jpFixture "\x7b\"type\":\"bogus\"\x7d").2.2
      (.obj [("type", .str "bogus")]) rfl ?_
    intro t ht
    have ht' : (Except.ok (JsVal.str "bogus") : Except Unit JsVal)
        = Except.ok t := ht
    injection ht' with h
    subst h
    decide

/-- Counterexample for C5: a filename carrying the deleted marker is flagged
deleted, yet the directory scan enumerates nothing from a listing holding
only that file, contradicting that such files stay enumerable. -/
theorem deletedFile_excluded_counterexample :
    isDeletedFile "s01.deleted.jsonl" = true ∧
    enumerateSessionFiles ["s01.deleted.jsonl"] = [] := by
  decide

/-- Claim C5 as amended: the scan enumerates exactly the .jsonl filenames
without the deleted marker, and a file whose name carries the marker is
flagged isDeleted when its summary is loaded directly. -/
theorem enumerateSessionFiles_spec (files : List String) (f : String)
    (jsParse : String → Option JsVal) (path content : String)
    (hdel : isDeletedFile (basename path) = true) :
    (f ∈ enumerateSessionFiles files ↔
      f ∈ files ∧ jsEndsWith f ".jsonl" = true ∧
        jsIncludes f ".deleted." = false) ∧
    (loadSessionSummary jsParse path content).isDeleted = true := by
  constructor
  · simp [enumerateSessionFiles, List.mem_filter, Bool.and_eq_true,
      Bool.not_eq_true', and_assoc]
  · simpa [loadSessionSummary] using hdel

/-- Witness for C5: concrete listing and a concrete deleted-marker path. -/
theorem enumerateSessionFiles_spec_witness :
    isDeletedFile (basename "agents/a/sessions/s01.deleted.jsonl") = true ∧
    (("a.jsonl" ∈ enumerateSessionFiles ["a.jsonl", "b.deleted.jsonl"] ↔
        "a.jsonl" ∈ ["a.jsonl", "b.deleted.jsonl"] ∧
          jsEndsWith "a.jsonl" ".jsonl" = true ∧
          jsIncludes "a.jsonl" ".deleted." = false) ∧
      (loadSessionSummary jpFixture "agents/a/sessions/s01.deleted.jsonl"
          "").isDeleted = true) :=
  ⟨by decide,
   enumerateSessionFiles_spec ["a.jsonl", "b.deleted.jsonl"] "a.jsonl"
     jpFixture "agents/a/sessions/s01.deleted.jsonl" "" (by decide)⟩

/-- An asRecord success returns the inspected value itself. -/
theorem asRecord_isSome_eq {v : JsVal} (h : (asRecord v).isSome) :
    asRecord v = some v := by
  cases v <;> simp_all [asRecord]

/-- Content extraction of a parsed message, as read by the viewers. -/
def parsedContent (raw : JsVal) : Option (List ContentBlock) :=
  match parseMessageEntry raw with
  | .ok (.message _ m) => some m.content
  | _ => none

/-- The raw content array a message entry is parsed from. -/
def rawContentOf (raw : JsVal) : List JsVal :=
  let message := (asRecord (raw.fieldD "message")).getD (.obj [])
  match message.fieldD "content" with
  | .arr xs => xs
  | _ => []

def c8content : List JsVal :=
  [.num 5, .obj [("type", .str "text"), ("text", .str "hi")]]

def c8raw : JsVal :=
  .obj [("type", .str "message"),
        ("message", .obj [("role", .str "user"), ("content", .arr c8content)])]

/-- Counterexample for C8: a raw content array with a non-object element
loses that element entirely (it is neither kept nor degraded to an empty
text block), so the parsed sequence does not preserve the indexing of the
raw array. -/
theorem contentBlocks_counterexample :
    parsedContent c8raw = some [.text "hi"] ∧ c8content.length = 2 :=
  ⟨rfl, rfl⟩

/-- Claim C8 as amended: object-valued content blocks are parsed
independently and an object block with an unrecognized type degrades to an
empty text block; non-object elements of the raw array are filtered out, so
ordering and indexing are preserved exactly when every element of the raw
content array is an object or an array. -/
theorem contentBlocks_spec (block : JsVal) (contentRaw : List JsVal)
    (fields : List (String × JsVal))
    (hty : asString (block.fieldD "type")
        ∉ (["text", "thinking", "toolCall", "image"] : List String))
    (hall : ∀ b ∈ contentRaw, (asRecord b).isSome) :
    parseContentBlock block = .text "" ∧
    (contentRaw.filterMap asRecord).map parseContentBlock
        = contentRaw.map parseContentBlock ∧
    parsedContent (.obj fields)
        = some (((rawContentOf (.obj fields)).filterMap asRecord).map
            parseContentBlock) := by
  refine ⟨?_, ?_, ?_⟩
  · simp only [List.mem_cons, List.not_mem_nil, or_false, not_or] at hty
    obtain ⟨h1, h2, h3, h4⟩ := hty
    simp [parseContentBlock, h1, h2, h3, h4]
  · have : contentRaw.filterMap asRecord = contentRaw := by
      induction contentRaw with
      | nil => rfl
      | cons b bs ih =>
        rw [List.filterMap_cons, asRecord_isSome_eq (hall b (by simp))]
        rw [ih (fun x hx => hall x (by simp [hx]))]
    rw [this]
  · simp only [parsedContent, parseMessageEntry, rawContentOf,
      normalizeBase, JsVal.getField, bind, Except.bind, pure, Except.pure]

/-- Witness for C8: a concrete unrecognized block, an all-object content
array and a concrete message object. -/
theorem contentBlocks_spec_witness :
    (asString ((JsVal.obj [("type", .str "mystery")]).fieldD "type")
        ∉ (["text", "thinking", "toolCall", "image"] : List String)) ∧
    (∀ b ∈ ([.obj [("type", .str "text"), ("text", .str "a")],
             .obj [("type", .str "mystery")]] : List JsVal),
      (asRecord b).isSome) ∧
    (parseContentBlock (.obj [("type", .str "mystery")]) = .text "" ∧
      (([.obj [("type", .str "text"), ("text", .str "a")],
         .obj [("type", .str "mystery")]] : List JsVal).filterMap
            asRecord).map parseContentBlock
        = ([.obj [("type", .str "text"), ("text", .str "a")],
            .obj [("type", .str "mystery")]] : List JsVal).map
              parseContentBlock ∧
      parsedContent (.obj [("type", .str "message")])
        = some (((rawContentOf (.obj [("type", .str "message")])).filterMap
            asRecord).map parseContentBlock)) := by
  refine ⟨by decide, by decide, ?_⟩
  exact contentBlocks_spec (.obj [("type", .str "mystery")]) _ _ (by decide)
    (by decide)

/-- The counter relations maintained by the statistics fold: the message
total splits into the three role counts, errors never exceed tool results,
and every counting field stays non-negative. -/
def messageCountersOk (s : SessionStats) : Prop :=
  s.messageCount = s.userMessages + s.assistantMessages + s.toolResults ∧
  s.errors ≤ s.toolResults ∧
  0 ≤ s.messageCount ∧ 0 ≤ s.userMessages ∧ 0 ≤ s.assistantMessages ∧
  0 ≤ s.toolCalls ∧ 0 ≤ s.toolResults ∧ 0 ≤ s.errors

/-- One fold step preserves the counter relations. -/
theorem statsStep_preserves (s : SessionStats) (e : AuditEntry)
    (h : messageCountersOk s) : messageCountersOk (statsStep s e) := by
  obtain ⟨h1, h2, h3, h4, h5, h6, h7, h8⟩ := h
  cases e with
  | message b m =>
    obtain ⟨role, content, api, prov, mo, sr, tci, tn, det, ie, us⟩ := m
    cases role <;> cases us <;> cases ie <;>
      simp [statsStep, messageCountersOk] <;> omega
  | session b v c => exact ⟨h1, h2, h3, h4, h5, h6, h7, h8⟩
  | modelChange b p mo => exact ⟨h1, h2, h3, h4, h5, h6, h7, h8⟩
  | thinkingLevelChange b l => exact ⟨h1, h2, h3, h4, h5, h6, h7, h8⟩
  | custom b c d => exact ⟨h1, h2, h3, h4, h5, h6, h7, h8⟩
  | compaction b su f t => exact ⟨h1, h2, h3, h4, h5, h6, h7, h8⟩

/-- The fold keeps the counter relations from any sound start state. -/
theorem foldl_statsStep_preserves :
    ∀ (l : List AuditEntry) (s : SessionStats), messageCountersOk s →
      messageCountersOk (l.foldl statsStep s) := by
  intro l
  induction l with
  | nil => intro s h; exact h
  | cons e l ih => intro s h; exact ih _ (statsStep_preserves s e h)

def negUsageEntry : AuditEntry :=
  .message ⟨"m", none, "t"⟩
    ⟨.assistant, [], none, none, none, none, none, none, none, false,
     some ⟨-5, 0, 0, 0, 0⟩⟩

/-- Counterexample for C10: a log line carrying a negative usage number
drives the inputTokens sum negative, so not every SessionStats counter is
non-negative. -/
theorem calculateStats_negative_counterexample :
    (calculateStats [negUsageEntry]).inputTokens = -5 ∧
    ¬ (0 ≤ (calculateStats [negUsageEntry]).inputTokens) := by
  decide

/-- Claim C10 as amended: the fold keeps messageCount equal to the sum of
the three role counts, errors bounded by toolResults, and every
message/role/tool/error counter non-negative; entries that are not messages
leave the whole statistics record unchanged.  (The token sums can go
negative when the log carries negative usage numbers.) -/
theorem calculateStats_counters (entries : List AuditEntry) :
    messageCountersOk (calculateStats entries) ∧
    (∀ e, e.typeName ≠ "message" → ∀ s, statsStep s e = s) := by
  constructor
  · refine foldl_statsStep_preserves entries statsInit ?_
    refine ⟨rfl, le_refl _, le_refl _, le_refl _, le_refl _, le_refl _,
      le_refl _, le_refl _⟩
  · intro e h s
    cases e with
    | message b m => exact (h rfl).elim
    | session b v c => rfl
    | modelChange b p mo => rfl
    | thinkingLevelChange b l => rfl
    | custom b c d => rfl
    | compaction b su f t => rfl

/-- Witness for C10: the fixture entry list and a concrete non-message
entry. -/
theorem calculateStats_counters_witness :
    (AuditEntry.session ⟨"s", none, "t"⟩ 1 "").typeName ≠ "message" ∧
    messageCountersOk (calculateStats filterFixtureEntries) ∧
    statsStep statsInit (.session ⟨"s", none, "t"⟩ 1 "") = statsInit :=
  ⟨by decide, (calculateStats_counters filterFixtureEntries).1,
   (calculateStats_counters []).2 (.session ⟨"s", none, "t"⟩ 1 "") (by decide)
     statsInit⟩

/-- Replacing timestamps changes no statistics step. -/
theorem statsStep_withTimestamp (s : SessionStats) (ts : String)
    (e : AuditEntry) : statsStep s (e.withTimestamp ts) = statsStep s e := by
  cases e <;> rfl

/-- The statistics fold is blind to timestamps: rewriting every timestamp
arbitrarily leaves the whole statistics record unchanged. -/
theorem calculateStats_timestamp_blind (g : AuditEntry → String)
    (entries : List AuditEntry) :
    calculateStats (entries.map (fun e => e.withTimestamp (g e)))
      = calculateStats entries := by
  unfold calculateStats
  suffices h : ∀ (l : List AuditEntry) (s : SessionStats),
      (l.map (fun e => e.withTimestamp (g e))).foldl statsStep s
        = l.foldl statsStep s from h entries statsInit
  intro l
  induction l with
  | nil => intro s; rfl
  | cons e l ih =>
    intro s
    rw [List.map_cons, List.foldl_cons, List.foldl_cons,
      statsStep_withTimestamp]
    exact ih _

/-- Membership in the merged global stream: an event appears exactly when
some loadable session of the list owns its entry, the timestamp passes the
validity predicate, and the tags are that sessions tags. -/
theorem preloadAllEvents_membership (parseDate : String → Option Int)
    (now : Int) (load : SessionSummaryRef → Option (List AuditEntry))
    (sessionList : List SessionSummaryRef) (ge : GlobalEventEntry) :
    ge ∈ preloadAllEvents parseDate now load sessionList ↔
      ∃ s ∈ sessionList, ∃ entries, load s = some entries ∧
        ge.entry ∈ entries ∧
        isValidEventTimestamp parseDate now ge.entry.timestamp = true ∧
        ge.agentName = s.agentName ∧ ge.sessionId = s.id ∧
        ge.sessionFilePath = s.filePath ∧ ge.sessionTimestamp = s.timestamp := by
  unfold preloadAllEvents
  rw [List.mem_mergeSort]
  unfold collectGlobalEvents
  rw [List.mem_flatMap]
  constructor
  · rintro ⟨s, hs, hmem⟩
    cases hload : load s with
    | none =>
      rw [hload] at hmem
      cases hmem
    | some entries =>
      rw [hload] at hmem
      rw [List.mem_map] at hmem
      obtain ⟨e, he, heq⟩ := hmem
      rw [List.mem_filter] at he
      subst heq
      exact ⟨s, hs, entries, hload, he.1, he.2, rfl, rfl, rfl, rfl⟩
  · rintro ⟨s, hs, entries, hload, hmem, hvalid, h1, h2, h3, h4⟩
    refine ⟨s, hs, ?_⟩
    rw [hload, List.mem_map]
    refine ⟨ge.entry, ?_, ?_⟩
    · rw [List.mem_filter]
      exact ⟨hmem, hvalid⟩
    · cases ge
      simp_all

/-- Claim C1: the timestamp-validity predicate holds exactly for strings
parsing to a finite, strictly positive time at most five minutes into the
future; the global merge emits exactly the tagged entries passing it; and
the per-session aggregation counts every parsed entry regardless of
timestamps (the event count is the full parse count and the statistics fold
never reads a timestamp). -/
theorem timestampValidity_spec (parseDate : String → Option Int) (now : Int)
    (load : SessionSummaryRef → Option (List AuditEntry))
    (sessionList : List SessionSummaryRef)
    (jsParse : String → Option JsVal) (filePath content : String)
    (g : AuditEntry → String) (entries : List AuditEntry)
    (ge : GlobalEventEntry) (ts : String) :
    (isValidEventTimestamp parseDate now ts = true ↔
      ∃ t, parseDate ts = some t ∧ 0 < t ∧ t ≤ now + 5 * 60 * 1000) ∧
    (ge ∈ preloadAllEvents parseDate now load sessionList ↔
      ∃ s ∈ sessionList, ∃ es, load s = some es ∧
        ge.entry ∈ es ∧
        isValidEventTimestamp parseDate now ge.entry.timestamp = true ∧
        ge.agentName = s.agentName ∧ ge.sessionId = s.id ∧
        ge.sessionFilePath = s.filePath ∧ ge.sessionTimestamp = s.timestamp) ∧
    (loadSessionSummary jsParse filePath content).eventCount
        = (parseJsonlContent jsParse content).length ∧
    calculateStats (entries.map (fun e => e.withTimestamp (g e)))
        = calculateStats entries := by
  refine ⟨?_, preloadAllEvents_membership parseDate now load sessionList ge,
    rfl, calculateStats_timestamp_blind g entries⟩
  cases hp : parseDate ts with
  | none => simp [isValidEventTimestamp, hp]
  | some t =>
    simp only [isValidEventTimestamp, hp, Option.some.injEq]
    constructor
    · intro h
      by_cases hle : t ≤ 0
      · simp [hle] at h
      · simp only [if_neg hle, decide_eq_true_eq] at h
        exact ⟨t, rfl, by omega, h⟩
    · rintro ⟨t', ht', hpos, hle⟩
      rw [if_neg (show ¬ t ≤ 0 by omega), decide_eq_true_eq]
      omega

/-- The all-events filter with only the free-text query facet active. -/
def queryOnlyFilter (q : String) : AllEventsFilter :=
  ⟨.all, none, none, "", false, q⟩

def c4event : GlobalEventEntry :=
  ⟨.message ⟨"id1", none, "ts1"⟩ (mkMessage .user [.text "ReadFile"] false),
   "agentA", "sess1", "p1", 0⟩

/-- Counterexample for C4: the composed search text of a concrete message
event fuzzy-matches the query rdfl, yet the global free-text facet drops the
event because it tests plain substring containment, not the fuzzy match; and
the per-session free-text facet never matches a non-message entry at all,
even when its serialization would contain the query. -/
theorem globalQueryFacet_counterexample :
    fuzzyMatch (eventSearchText (fun _ => "") (fun _ => "") c4event) "rdfl"
        = true ∧
    filteredAllEvents (fun _ => "") (fun _ => "") (fun _ => some 1) 0
        (queryOnlyFilter "rdfl") [c4event] = [] ∧
    searchPred "session" (.session ⟨"s", none, "t"⟩ 1 "/w") = false :=
  ⟨rfl, rfl, rfl⟩

/-- Claim C4 as amended: the global free-text facet keeps exactly the events
whose composed search text contains the trimmed lowercased query as a plain
substring; for a non-message event that text is the base fields followed by
the full serialized entry (so a non-message event whose serialization
contains the query qualifies under substring matching); and the per-session
free-text facet never matches non-message entries. -/
theorem globalQueryFacet_substring (stringify : AuditEntry → String)
    (argsStringify : JsVal → String) (parseDate : String → Option Int)
    (now : Int) (q : String) (events : List GlobalEventEntry) :
    filteredAllEvents stringify argsStringify parseDate now (queryOnlyFilter q)
        events
      = events.filter (fun ev =>
          jsIncludes (eventSearchText stringify argsStringify ev)
            (jsToLower (jsTrim q))) ∧
    (∀ ev : GlobalEventEntry, ev.entry.typeName ≠ "message" →
      eventSearchText stringify argsStringify ev
        = jsToLower (eventBaseText ev ++ " " ++ stringify ev.entry)) ∧
    (∀ sq : String, ∀ e : AuditEntry, e.typeName ≠ "message" →
      searchPred sq e = false) := by
  refine ⟨?_, ?_, ?_⟩
  · refine List.filter_congr ?_
    intro ev _
    simp only [filteredAllEvents, queryOnlyFilter, eventWindowMs,
      eventMatchesCategory]
    have h0 : jsToLower (jsTrim "") = "" := rfl
    by_cases hq : jsToLower (jsTrim q) = ""
    · simp [hq, h0, jsIncludes_empty]
    · simp [hq, h0]
  · intro ev h
    obtain ⟨entry, a, si, fp, st⟩ := ev
    cases entry with
    | message b m => exact (h rfl).elim
    | session b v c => rfl
    | modelChange b p mo => rfl
    | thinkingLevelChange b l => rfl
    | custom b c d => rfl
    | compaction b su f t => rfl
  · intro sq e h
    cases e with
    | message b m => exact (h rfl).elim
    | session b v c => rfl
    | modelChange b p mo => rfl
    | thinkingLevelChange b l => rfl
    | custom b c d => rfl
    | compaction b su f t => rfl

/-- Witness for C4: concrete serializer, parser and events. -/
theorem globalQueryFacet_substring_witness :
    ((AuditEntry.session ⟨"s", none, "t"⟩ 1 "/w").typeName ≠ "message") ∧
    (filteredAllEvents (fun _ => "S") (fun _ => "") (fun _ => some 1) 0
        (queryOnlyFilter "rdfl") [c4event]
      = [c4event].filter (fun ev =>
          jsIncludes (eventSearchText (fun _ => "S") (fun _ => "") ev)
            (jsToLower (jsTrim "rdfl"))) ∧
      eventSearchText (fun _ => "S") (fun _ => "")
          ⟨.session ⟨"s", none, "t"⟩ 1 "/w", "a", "i", "p", 0⟩
        = jsToLower
            (eventBaseText ⟨.session ⟨"s", none, "t"⟩ 1 "/w", "a", "i", "p", 0⟩
              ++ " " ++ "S") ∧
      searchPred "x" (.session ⟨"s", none, "t"⟩ 1 "/w") = false) := by
  have h := globalQueryFacet_substring (fun _ => "S") (fun _ => "")
    (fun _ => some 1) 0 "rdfl" [c4event]
  exact ⟨by decide, h.1,
    h.2.1 ⟨.session ⟨"s", none, "t"⟩ 1 "/w", "a", "i", "p", 0⟩ (by decide),
    h.2.2 "x" _ (by decide)⟩

/-! ## Histogram bookkeeping lemmas -/

theorem getD_replicate_zero : ∀ (n b : Nat), (List.replicate n 0).getD b 0 = 0 := by
  intro n
  induction n with
  | zero => intro b; cases b <;> rfl
  | succ n ih =>
    intro b
    cases b with
    | zero => rfl
    | succ b => exact ih b

theorem getD_set_self (v : Nat) :
    ∀ (l : List Nat) (i : Nat), i < l.length → (l.set i v).getD i 0 = v := by
  intro l
  induction l with
  | nil => intro i h; simp at h
  | cons x l ih =>
    intro i h
    cases i with
    | zero => rfl
    | succ i => exact ih i (by simpa using h)

theorem getD_set_ne (v : Nat) :
    ∀ (l : List Nat) (i j : Nat), i ≠ j →
      (l.set i v).getD j 0 = l.getD j 0 := by
  intro l
  induction l with
  | nil => intro i j _; rfl
  | cons x l ih =>
    intro i j hne
    cases i with
    | zero =>
      cases j with
      | zero => exact absurd rfl hne
      | succ j => rfl
    | succ i =>
      cases j with
      | zero => rfl
      | succ j => exact ih i j (fun h => hne (by rw [h]))

theorem sum_set_getD :
    ∀ (l : List Nat) (i : Nat), i < l.length →
      (l.set i (l.getD i 0 + 1)).sum = l.sum + 1 := by
  intro l
  induction l with
  | nil => intro i h; simp at h
  | cons x l ih =>
    intro i h
    cases i with
    | zero => simp [List.sum_cons]; omega
    | succ i =>
      have := ih i (by simpa using h)
      simp only [List.set_cons_succ, List.sum_cons, List.getD_cons_succ, this]
      omega

theorem tally_length (f : Int → Nat) :
    ∀ (tss : List (Option Int)) (acc : List Nat),
      (tss.foldl (tallyStep f) acc).length = acc.length := by
  intro tss
  induction tss with
  | nil => intro acc; rfl
  | cons ts? tss ih =>
    intro acc
    rw [List.foldl_cons, ih]
    cases ts? with
    | none => rfl
    | some t => simp [tallyStep, List.length_set]

theorem tally_sum (f : Int → Nat) :
    ∀ (tss : List (Option Int)) (acc : List Nat),
      (∀ t, f t < acc.length) →
      (tss.foldl (tallyStep f) acc).sum
        = acc.sum + tss.countP Option.isSome := by
  intro tss
  induction tss with
  | nil => intro acc _; simp
  | cons ts? tss ih =>
    intro acc hlt
    rw [List.foldl_cons]
    cases ts? with
    | none =>
      have hred : tallyStep f acc none = acc := rfl
      rw [hred, ih acc hlt]
      simp [List.countP_cons]
    | some t =>
      have hlen : ∀ u, f u < (tallyStep f acc (some t)).length := by
        intro u
        simpa [tallyStep, List.length_set] using hlt u
      rw [ih _ hlen]
      have hsum : (tallyStep f acc (some t)).sum = acc.sum + 1 :=
        sum_set_getD acc (f t) (hlt t)
      rw [hsum]
      simp [List.countP_cons]
      omega

theorem tally_getD (f : Int → Nat) (b : Nat) :
    ∀ (tss : List (Option Int)) (acc : List Nat),
      (∀ t, f t < acc.length) →
      (tss.foldl (tallyStep f) acc).getD b 0
        = acc.getD b 0 + tss.countP (fun ts? =>
            match ts? with
            | some t => decide (f t = b)
            | none => false) := by
  intro tss
  induction tss with
  | nil => intro acc _; simp
  | cons ts? tss ih =>
    intro acc hlt
    rw [List.foldl_cons]
    cases ts? with
    | none =>
      have hred : tallyStep f acc none = acc := rfl
      rw [hred, ih acc hlt]
      simp [List.countP_cons]
    | some t =>
      have hlen : ∀ u, f u < (tallyStep f acc (some t)).length := by
        intro u
        simpa [tallyStep, List.length_set] using hlt u
      rw [ih _ hlen]
      by_cases hb : f t = b
      · have : (tallyStep f acc (some t)).getD b 0 = acc.getD b 0 + 1 := by
          subst hb
          exact getD_set_self _ acc (f t) (hlt t)
        rw [this]
        simp [List.countP_cons, hb]
        omega
      · have : (tallyStep f acc (some t)).getD b 0 = acc.getD b 0 :=
          getD_set_ne _ acc (f t) b hb
        rw [this]
        simp [List.countP_cons, hb]

theorem minScan_some : ∀ (tss : List (Option Int)) (m : Int),
    ∃ v, tss.foldl minScanStep (some m) = some v := by
  intro tss
  induction tss with
  | nil => intro m; exact ⟨m, rfl⟩
  | cons ts? tss ih =>
    intro m
    rw [List.foldl_cons]
    cases ts? with
    | none => exact ih m
    | some t =>
      simp only [minScanStep]
      by_cases h : t < m
      · simpa [h] using ih t
      · simpa [h] using ih m

theorem maxScan_some : ∀ (tss : List (Option Int)) (m : Int),
    ∃ v, tss.foldl maxScanStep (some m) = some v := by
  intro tss
  induction tss with
  | nil => intro m; exact ⟨m, rfl⟩
  | cons ts? tss ih =>
    intro m
    rw [List.foldl_cons]
    cases ts? with
    | none => exact ih m
    | some t =>
      simp only [maxScanStep]
      by_cases h : t > m
      · simpa [h] using ih t
      · simpa [h] using ih m

theorem foldl_max_init_le : ∀ (l : List Nat) (a : Nat), a ≤ l.foldl max a := by
  intro l
  induction l with
  | nil => intro a; exact le_refl a
  | cons c l ih =>
    intro a
    exact le_trans (Nat.le_max_left a c) (ih (max a c))

theorem foldl_max_mem_le : ∀ (l : List Nat) (a c : Nat), c ∈ l →
    c ≤ l.foldl max a := by
  intro l
  induction l with
  | nil => intro a c h; cases h
  | cons d l ih =>
    intro a c h
    rcases List.mem_cons.mp h with rfl | h
    · exact le_trans (Nat.le_max_right a c) (foldl_max_init_le l (max a c))
    · exact ih (max a d) c h

theorem foldl_max_eq_or_mem : ∀ (l : List Nat) (a : Nat),
    l.foldl max a = a ∨ l.foldl max a ∈ l := by
  intro l
  induction l with
  | nil => intro a; exact Or.inl rfl
  | cons c l ih =>
    intro a
    rw [List.foldl_cons]
    rcases ih (max a c) with h | h
    · rw [h]
      rcases Nat.le_total a c with hac | hca
      · right
        rw [Nat.max_eq_right hac]
        exact List.mem_cons_self c l
      · left
        exact Nat.max_eq_left hca
    · right
      exact List.mem_cons_of_mem c h

/-- The maxCount scan of the source is the fold of max. -/
theorem histMax_body_eq :
    ∀ (l : List Nat) (a : Nat),
      l.foldl (fun m c => if c > m then c else m) a = l.foldl max a := by
  intro l
  induction l with
  | nil => intro a; rfl
  | cons c l ih =>
    intro a
    rw [List.foldl_cons, List.foldl_cons, ih]
    congr 1
    rcases Nat.lt_or_ge a c with h | h
    · rw [if_pos h, Nat.max_eq_right (le_of_lt h)]
    · rw [if_neg (by omega), Nat.max_eq_left h]

/-- Every bucket index is below the bucket count. -/
theorem bucketIndexOf_lt (bucketCount : Nat) (hbc : 0 < bucketCount)
    (mn range t : Int) : bucketIndexOf bucketCount mn range t < bucketCount := by
  unfold bucketIndexOf
  exact lt_of_le_of_lt (Nat.min_le_left _ _) (by omega)

/-- The fold of max over a non-empty list is one of its elements. -/
theorem foldl_max_mem_of_ne_nil (l : List Nat) (hne : l ≠ []) :
    l.foldl max 0 ∈ l := by
  rcases foldl_max_eq_or_mem l 0 with h | h
  · rw [h]
    cases l with
    | nil => exact absurd rfl hne
    | cons c l =>
      have hc : c ≤ (c :: l).foldl max 0 :=
        foldl_max_mem_le _ 0 c (List.mem_cons_self c l)
      rw [h] at hc
      have hc0 : c = 0 := Nat.le_zero.mp hc
      rw [← hc0]
      exact List.mem_cons_self c l
  · exact h

/-- On a non-empty event list whose scans produce a min and a max, the
histogram is the record built from the counting loop and the axis labels. -/
theorem buildHistogram_eq_of_scan (parseDate : String → Option Int)
    (formatAxisTime : Int → String) (events : List GlobalEventEntry)
    (histogramBuckets : Nat) (mn mx : Int) (hne : events ≠ [])
    (hmn : histMinTs (events.map fun e => parseDate e.entry.timestamp)
        = some mn)
    (hmx : histMaxTs (events.map fun e => parseDate e.entry.timestamp)
        = some mx) :
    buildHistogram parseDate formatAxisTime events histogramBuckets
      = ⟨histCounts (max 8 histogramBuckets) mn (max (mx - mn) 1)
            (events.map fun e => parseDate e.entry.timestamp),
         formatAxisTime mn, formatAxisTime mx,
         (histCounts (max 8 histogramBuckets) mn (max (mx - mn) 1)
            (events.map fun e => parseDate e.entry.timestamp)).foldl
           (fun m c => if c > m then c else m) 0⟩ := by
  unfold buildHistogram
  rw [if_neg (by simpa [List.length_eq_zero] using hne)]
  simp only [hmn, hmx]

/-- Claim C7: buildHistogram uses max(8, requested) buckets, returns the
all-zero placeholder histogram on empty input, distributes (under the
premise that every timestamp parses, which the bucket formula presupposes)
exactly one count per event into the bucket floor(((ts - min) / max(max -
min, 1)) * bucketCount) clamped to the last bucket, so the counts sum to the
number of events, and maxCount is the largest single-bucket value. -/
theorem buildHistogram_spec (parseDate : String → Option Int)
    (formatAxisTime : Int → String) (events : List GlobalEventEntry)
    (histogramBuckets : Nat)
    (hparse : ∀ e ∈ events, (parseDate e.entry.timestamp).isSome) :
    (buildHistogram parseDate formatAxisTime events
        histogramBuckets).counts.length = max 8 histogramBuckets ∧
    buildHistogram parseDate formatAxisTime [] histogramBuckets
      = ⟨List.replicate (max 8 histogramBuckets) 0, "--:--", "--:--", 0⟩ ∧
    (buildHistogram parseDate formatAxisTime events
        histogramBuckets).counts.sum = events.length ∧
    (∀ mn mx b,
      histMinTs (events.map fun e => parseDate e.entry.timestamp) = some mn →
      histMaxTs (events.map fun e => parseDate e.entry.timestamp) = some mx →
      (buildHistogram parseDate formatAxisTime events
          histogramBuckets).counts.getD b 0
        = events.countP (fun e =>
            match parseDate e.entry.timestamp with
            | some t =>
              decide (bucketIndexOf (max 8 histogramBuckets) mn
                (max (mx - mn) 1) t = b)
            | none => false)) ∧
    ((buildHistogram parseDate formatAxisTime events
        histogramBuckets).maxCount
      ∈ (buildHistogram parseDate formatAxisTime events
          histogramBuckets).counts ∧
     ∀ c ∈ (buildHistogram parseDate formatAxisTime events
          histogramBuckets).counts,
       c ≤ (buildHistogram parseDate formatAxisTime events
          histogramBuckets).maxCount) := by
  have hbc : 0 < max 8 histogramBuckets :=
    lt_of_lt_of_le (by norm_num) (Nat.le_max_left 8 _)
  cases events with
  | nil =>
    have hred : buildHistogram parseDate formatAxisTime [] histogramBuckets
        = ⟨List.replicate (max 8 histogramBuckets) 0, "--:--", "--:--", 0⟩ :=
      rfl
    refine ⟨?_, rfl, ?_, ?_, ?_, ?_⟩
    · rw [hred]
      exact List.length_replicate _ _
    · rw [hred]
      simp [List.sum_replicate]
    · intro mn mx b h1 _
      simp [histMinTs] at h1
    · rw [hred]
      exact List.mem_replicate.mpr ⟨by omega, rfl⟩
    · intro c hc
      rw [hred] at hc ⊢
      rw [List.eq_of_mem_replicate hc]
  | cons e es =>
    have hne : (e :: es) ≠ [] := by simp
    obtain ⟨t0, ht0⟩ :=
      Option.isSome_iff_exists.mp (hparse e (List.mem_cons_self e es))
    have hmnex : ∃ mn, histMinTs ((e :: es).map
        fun x => parseDate x.entry.timestamp) = some mn := by
      have : histMinTs ((e :: es).map fun x => parseDate x.entry.timestamp)
          = (es.map fun x => parseDate x.entry.timestamp).foldl minScanStep
              (some t0) := by
        simp [histMinTs, ht0, minScanStep]
      rw [this]
      exact minScan_some _ t0
    have hmxex : ∃ mx, histMaxTs ((e :: es).map
        fun x => parseDate x.entry.timestamp) = some mx := by
      have : histMaxTs ((e :: es).map fun x => parseDate x.entry.timestamp)
          = (es.map fun x => parseDate x.entry.timestamp).foldl maxScanStep
              (some t0) := by
        simp [histMaxTs, ht0, maxScanStep]
      rw [this]
      exact maxScan_some _ t0
    obtain ⟨mn, hmn⟩ := hmnex
    obtain ⟨mx, hmx⟩ := hmxex
    have heq := buildHistogram_eq_of_scan parseDate formatAxisTime (e :: es)
      histogramBuckets mn mx hne hmn hmx
    have hlt : ∀ t, bucketIndexOf (max 8 histogramBuckets) mn
        (max (mx - mn) 1) t
          < (List.replicate (max 8 histogramBuckets) (0 : Nat)).length := by
      intro t
      rw [List.length_replicate]
      exact bucketIndexOf_lt _ hbc _ _ _
    have hclen : (histCounts (max 8 histogramBuckets) mn (max (mx - mn) 1)
        ((e :: es).map fun x => parseDate x.entry.timestamp)).length
          = max 8 histogramBuckets := by
      unfold histCounts
      rw [tally_length, List.length_replicate]
    refine ⟨?_, rfl, ?_, ?_, ?_, ?_⟩
    · rw [heq]
      exact hclen
    · rw [heq]
      show (histCounts _ _ _ _).sum = _
      unfold histCounts
      rw [tally_sum _ _ _ hlt]
      have hall : ∀ x ∈ ((e :: es).map fun x => parseDate x.entry.timestamp),
          x.isSome := by
        intro x hx
        rw [List.mem_map] at hx
        obtain ⟨ev, hev, rfl⟩ := hx
        exact hparse ev hev
      rw [List.countP_eq_length.mpr hall, List.length_map]
      simp [List.sum_replicate]
    · intro mn' mx' b hmn' hmx'
      rw [hmn] at hmn'
      rw [hmx] at hmx'
      cases hmn'
      cases hmx'
      rw [heq]
      show (histCounts _ _ _ _).getD b 0 = _
      unfold histCounts
      rw [tally_getD _ _ _ _ hlt, getD_replicate_zero, List.countP_map]
      simp only [Nat.zero_add]
      rfl
    · rw [heq]
      show (histCounts _ _ _ _).foldl (fun m c => if c > m then c else m) 0
          ∈ histCounts _ _ _ _
      rw [histMax_body_eq]
      refine foldl_max_mem_of_ne_nil _ ?_
      intro hnil
      rw [hnil] at hclen
      simp at hclen
      omega
    · intro c hc
      rw [heq] at hc ⊢
      show c ≤ (histCounts _ _ _ _).foldl (fun m c => if c > m then c else m) 0
      rw [histMax_body_eq]
      exact foldl_max_mem_le _ 0 c hc

/-- A concrete Date parser for the histogram witness. -/
def pdFixture : String → Option Int
  | "ts1" => some 0
  | "ts2" => some 1000
  | _ => none

def histFixtureEvents : List GlobalEventEntry :=
  [c4event, ⟨.session ⟨"id2", none, "ts2"⟩ 1 "/w", "a", "i", "p", 0⟩]

/-- Witness for C7: two concrete events with parseable timestamps. -/
theorem buildHistogram_spec_witness :
    (∀ e ∈ histFixtureEvents, (pdFixture e.entry.timestamp).isSome) ∧
    (buildHistogram pdFixture (fun _ => "") histFixtureEvents 24).counts.sum
        = histFixtureEvents.length :=
  ⟨by decide,
   (buildHistogram_spec pdFixture (fun _ => "") histFixtureEvents 24
      (by decide)).2.2.1⟩
